import Mathlib

/-!
Verification of the audio-transcription utility (`transcribe_audio.py`).

Strings are modelled as `List Char`.  Python string operations are embedded
as executable Lean functions with the semantics of the CPython operations
actually used by the source: `str.strip`, `str.replace` (left-to-right,
non-overlapping, no rescanning of replaced text), `str.split`,
`str.startswith`, the `in` substring test, and the three regular
expressions of `generate_descriptive_filename`.  Character classes
(`\w`, `\s`, `str.isalpha`, `str.lower`) are modelled on their ASCII
fragment, which covers every literal the program manipulates.
`pathlib.Path.name/stem/suffix` are modelled by their documented
last-slash / last-dot rules (the special components `.` and `..` are not
special-cased).  Side effects (file read, the single network call, the
file write) are modelled as an explicit event list, and `datetime.now()`
as an explicit parameter.
-/

set_option autoImplicit false

namespace TranscribeAudio

/-- Python whitespace test on the ASCII range: the characters stripped by
`str.strip()` and matched by `\s`. -/
def isPyWS (c : Char) : Bool :=
  c = ' ' || c = '\t' || c = '\n' || c = '\r' || c = '\x0b' || c = '\x0c'

/-- ASCII fragment of Python's regex class `\w`: letters, digits, underscore. -/
def isWordChar (c : Char) : Bool :=
  c.isAlphanum || c = '_'

/-- Characters matched by the regex class `[-\s]` (source line 114). -/
def isDashWS (c : Char) : Bool :=
  isPyWS c || c = '-'

/-- Filesystem-safe characters, as used by the specification's claim that
filenames contain "only filesystem-safe characters": letters, digits,
underscore, dot and hyphen. -/
def fsSafe (c : Char) : Bool :=
  c.isAlphanum || c = '_' || c = '.' || c = '-'

/-- Remove trailing Python whitespace (right half of `str.strip()`). -/
def dropTrailWS (l : List Char) : List Char :=
  (l.reverse.dropWhile isPyWS).reverse

/-- Python `str.strip()` on the ASCII range. -/
def pyStrip (l : List Char) : List Char :=
  dropTrailWS (l.dropWhile isPyWS)

/-- Python's substring test `pat in s`, by scanning every position. -/
def occursB (pat : List Char) : List Char → Bool
  | [] => pat.isEmpty
  | c :: t => pat.isPrefixOf (c :: t) || occursB pat t

/-- Fuelled worker for `pyReplace`: at each position, if the pattern starts
here emit the replacement and continue after the pattern, otherwise keep the
character.  One unit of fuel is spent per step, and every step consumes at
least one input character, so fuel `s.length` always suffices. -/
def replTake (pat rep : List Char) : Nat → List Char → List Char
  | _, [] => []
  | 0, s => s
  | f + 1, c :: t =>
      if pat.isPrefixOf (c :: t) then rep ++ replTake pat rep f (List.drop pat.length (c :: t))
      else c :: replTake pat rep f t

/-- Python `s.replace(pat, rep)` for a non-empty pattern: leftmost-first,
non-overlapping, and the replaced text is never rescanned.  (Every pattern
used by the source is non-empty; for an empty pattern we return `s`.) -/
def pyReplace (s pat rep : List Char) : List Char :=
  if pat.isEmpty then s else replTake pat rep s.length s

/-- Worker for `pySplit`; `acc` holds the current word reversed. -/
def pySplitAux : List Char → List Char → List (List Char)
  | acc, [] => if acc.isEmpty then [] else [acc.reverse]
  | acc, c :: t =>
      if isPyWS c then
        if acc.isEmpty then pySplitAux [] t else acc.reverse :: pySplitAux [] t
      else pySplitAux (c :: acc) t

/-- Python `str.split()` with no argument: split on whitespace runs,
discarding empty pieces (source line 109). -/
def pySplit (l : List Char) : List (List Char) :=
  pySplitAux [] l

/-- Worker for `wordRuns`; `acc` holds the current `\w`-run reversed. -/
def wordRunsAux : List Char → List Char → List (List Char)
  | acc, [] => if acc.isEmpty then [] else [acc.reverse]
  | acc, c :: t =>
      if isWordChar c then wordRunsAux (c :: acc) t
      else if acc.isEmpty then wordRunsAux [] t
      else acc.reverse :: wordRunsAux [] t

/-- Maximal runs of word characters of a string. -/
def wordRuns (l : List Char) : List (List Char) :=
  wordRunsAux [] l

/-- Python `re.findall(r'\b[A-Za-z]{3,}\b', l)`: exactly the maximal
word-character runs that consist solely of letters and have length at least
three (a letter run flanked by another word character has no boundary and is
not matched). -/
def findAlphaWords (l : List Char) : List (List Char) :=
  (wordRuns l).filter (fun w => 3 ≤ w.length && w.all Char.isAlpha)

/-- Worker for `collapseDashWS`; the flag records whether the previous
character was part of a `[-\s]+` run. -/
def collapseRunsAux : Bool → List Char → List Char
  | _, [] => []
  | inRun, c :: t =>
      if isDashWS c then
        if inRun then collapseRunsAux true t else '_' :: collapseRunsAux true t
      else c :: collapseRunsAux false t

/-- Python `re.sub(r'[-\s]+', '_', l)` (source line 114): every maximal run
of hyphens and whitespace becomes a single underscore. -/
def collapseDashWS (l : List Char) : List Char :=
  collapseRunsAux false l

/-- Match the regex `Speaker \d+:\s*` at the start of `s`; on success return
the rest of the string after the greedily consumed whitespace. -/
def matchSpeakerTag (s : List Char) : Option (List Char) :=
  if "Speaker ".toList.isPrefixOf s then
    let r := s.drop 8
    let ds := r.takeWhile Char.isDigit
    if ds.isEmpty then none
    else
      match r.drop ds.length with
      | ':' :: rest => some (rest.dropWhile isPyWS)
      | _ => none
  else none

/-- Fuelled worker for `removeSpeakerTags`. -/
def removeTagsTake : Nat → List Char → List Char
  | _, [] => []
  | 0, s => s
  | f + 1, c :: t =>
      match matchSpeakerTag (c :: t) with
      | some rest => removeTagsTake f rest
      | none => c :: removeTagsTake f t

/-- Python `re.sub(r'Speaker \d+:\s*', '', l)` (source line 95). -/
def removeSpeakerTags (l : List Char) : List Char :=
  removeTagsTake l.length l

/-- Python `str.lower()` on the ASCII range. -/
def lowerStr (l : List Char) : List Char :=
  l.map Char.toLower

/-- Python `word.isalpha()`: non-empty and all letters. -/
def pyIsAlpha (w : List Char) : Bool :=
  !w.isEmpty && w.all Char.isAlpha

/-- The `name` of `pathlib.Path`: the last non-empty slash-separated
component (the components `.` and `..` are not special-cased). -/
def pyName (p : List Char) : List Char :=
  ((p.splitOn '/').filter (fun s => !s.isEmpty)).getLastD []

/-- Split a path component into pathlib's `(stem, suffix)`: writing `i` for
the index of the last dot, the suffix is `name[i:]` when `0 < i < len - 1`
and empty otherwise. -/
def pathStemSuffix (name : List Char) : List Char × List Char :=
  let tail := name.reverse.takeWhile (fun c => c ≠ '.')
  if tail.length = name.length then (name, [])
  else if tail.length = 0 then (name, [])
  else if tail.length + 1 = name.length then (name, [])
  else (name.take (name.length - tail.length - 1), name.drop (name.length - tail.length - 1))

/-- `pathlib.Path(p).stem` (source line 126). -/
def pathStem (p : List Char) : List Char :=
  (pathStemSuffix (pyName p)).1

/-- `pathlib.Path(p).suffix` (source lines 78, 83). -/
def pathSuffix (p : List Char) : List Char :=
  (pathStemSuffix (pyName p)).2

/-- The extension-to-MIME table of source lines 59-67. -/
def AUDIO_EXTENSIONS_TO_MIME : List (List Char × List Char) :=
  [ (".mp3".toList, "audio/mpeg".toList)
  , (".wav".toList, "audio/wav".toList)
  , (".ogg".toList, "audio/ogg".toList)
  , (".m4a".toList, "audio/mp4".toList)
  , (".mp4".toList, "audio/mp4".toList)
  , (".aac".toList, "audio/aac".toList)
  , (".webm".toList, "audio/webm".toList) ]

/-- Source lines 76-79: look up the lower-cased suffix in the table, with
default `audio/mp4`. -/
def get_gemini_mime_type (file_path : List Char) : List Char :=
  (AUDIO_EXTENSIONS_TO_MIME.lookup (lowerStr (pathSuffix file_path))).getD "audio/mp4".toList

/-- Source lines 81-84: a file is an audio file iff its lower-cased suffix
is a key of the table. -/
def is_audio_file (file_path : List Char) : Bool :=
  (AUDIO_EXTENSIONS_TO_MIME.lookup (lowerStr (pathSuffix file_path))).isSome

/-- The model table of source lines 27-30. -/
def MODEL_OPTIONS : List (List Char × List Char) :=
  [ ("flash".toList, "models/gemini-2.0-flash-exp".toList)
  , ("pro".toList, "models/gemini-2.5-pro-exp-03-25".toList) ]

/-- Source line 32. -/
def DEFAULT_MODEL : List Char :=
  "flash".toList

/-- Source line 143: `MODEL_OPTIONS.get(model_key, MODEL_OPTIONS[DEFAULT_MODEL])`. -/
def selectModel (model_key : List Char) : List Char :=
  (MODEL_OPTIONS.lookup model_key).getD ((MODEL_OPTIONS.lookup DEFAULT_MODEL).getD [])

/-- The stop-word set of source line 99, kept in source order (the source
lists `have` twice; as with Python's set literal this is harmless). -/
def COMMON_WORDS : List (List Char) :=
  [ "the", "and", "are", "you", "for", "not", "with", "have", "this", "that"
  , "was", "but", "they", "been", "have", "their", "said", "each", "which"
  , "she", "how", "will", "can", "what", "when", "where", "who", "why"
  , "would", "could", "should", "about", "from", "into", "over", "after"
  , "before", "during", "through", "above", "below", "between", "among"
  ].map String.toList

/-- An instant of local time, standing for `datetime.now()`. -/
structure PyDateTime where
  year : Nat
  month : Nat
  day : Nat
  hour : Nat
  minute : Nat
  second : Nat
deriving DecidableEq, Repr

/-- Decimal digits of `n`, zero-padded on the left to width `w`. -/
def padNat (w n : Nat) : List Char :=
  let d := (Nat.repr n).toList
  List.replicate (w - d.length) '0' ++ d

/-- `datetime.strftime("%Y%m%d_%H%M%S")` (source line 125). -/
def strftimeTimestamp (t : PyDateTime) : List Char :=
  padNat 4 t.year ++ padNat 2 t.month ++ padNat 2 t.day ++ ['_'] ++
    padNat 2 t.hour ++ padNat 2 t.minute ++ padNat 2 t.second

/-- The description clean-up of source lines 112-122: remove characters
outside `[\w\s-]`, collapse hyphen/whitespace runs to underscores, truncate
to 50 characters, and fall back to the literal `transcript` when empty. -/
def cleanDescription (description : List Char) : List Char :=
  let description2 := description.filter (fun c => isWordChar c || isPyWS c || c = '-')
  let description3 := collapseDashWS description2
  let description4 := if 50 < description3.length then description3.take 50 else description3
  if description4.isEmpty then "transcript".toList else description4

/-- The raw description of source lines 88-110: strip, preview of 100
characters with newlines collapsed, speaker tags removed, alphabetic words
of length at least 3 filtered against the stop words, first four joined by
underscores, falling back to the first three purely alphabetic
whitespace-split words of the stripped text. -/
def rawDescriptionOf (transcript_text : List Char) : List Char :=
  let text := pyStrip transcript_text
  let preview := (text.take 100).map (fun c => if c = '\n' || c = '\r' then ' ' else c)
  let preview2 := removeSpeakerTags preview
  let words := findAlphaWords preview2
  let meaningful_words := (words.map lowerStr).filter (fun w => !COMMON_WORDS.contains w)
  if !meaningful_words.isEmpty then List.intercalate ['_'] (meaningful_words.take 4)
  else List.intercalate ['_'] ((((pySplit text).take 3).filter pyIsAlpha).map lowerStr)

/-- The description component of the synthesized filename, source lines
88-122: the raw description followed by the clean-up. -/
def descriptionOf (transcript_text : List Char) : List Char :=
  cleanDescription (rawDescriptionOf transcript_text)

/-- Source lines 86-128, with `datetime.now()` passed explicitly:
the returned filename is
`description ++ "_" ++ stem ++ "_" ++ timestamp ++ ".md"`. -/
def generate_descriptive_filename (transcript_text original_filename : List Char)
    (now : PyDateTime) : List Char :=
  descriptionOf transcript_text ++ ['_'] ++ pathStem original_filename ++ ['_'] ++
    strftimeTimestamp now ++ ".md".toList

/-- Boilerplate phrase of source line 213. -/
def bp1 : List Char :=
  "# Transcription\n\n".toList

/-- Boilerplate phrase of source line 214. -/
def bp2 : List Char :=
  "Okay, here is the transcription:\n".toList

/-- Boilerplate phrase of source line 215 (the apostrophe is written
escaped). -/
def bp3 : List Char :=
  "Here\x27s the transcription:\n".toList

/-- Source lines 213-215: three `str.replace` calls removing the
boilerplate phrases everywhere in the text. -/
def removeBoilerplate (t : List Char) : List Char :=
  pyReplace (pyReplace (pyReplace t bp1 []) bp2 []) bp3 []

/-- The word `Speaker`. -/
def speakerWord : List Char :=
  "Speaker".toList

/-- The literal label `Speaker i:` for a single digit `i`. -/
def speakerLabel (i : Nat) : List Char :=
  "Speaker ".toList ++ [Nat.digitChar i] ++ [':']

/-- The literal label `**Speaker i:**` for a single digit `i`. -/
def starSpeakerLabel (i : Nat) : List Char :=
  "**Speaker ".toList ++ [Nat.digitChar i] ++ ":**".toList

/-- The per-line test of source line 221: the stripped line starts with
`Speaker ` or `**Speaker `. -/
def lineStartsSpeaker (line : List Char) : Bool :=
  "Speaker ".toList.isPrefixOf (pyStrip line) || "**Speaker ".toList.isPrefixOf (pyStrip line)

/-- The per-line membership test of source line 223: `Speaker i:` or
`**Speaker i:**` occurs in the (unstripped) line. -/
def lineDetects (i : Nat) (line : List Char) : Bool :=
  occursB (speakerLabel i) line || occursB (starSpeakerLabel i) line

/-- Source lines 218-224: the set of speaker numbers `1..9` found by
scanning the lines, as a duplicate-free list. -/
def detectSpeakers (t : List Char) : List Nat :=
  ((((t.splitOn '\n').filter lineStartsSpeaker).map
      (fun line => (List.range' 1 9).filter (fun i => lineDetects i line))).flatten).dedup

/-- Source lines 228-232: when exactly one distinct speaker was detected,
remove both literal label forms for speaker 1 everywhere and re-strip;
otherwise leave the text unchanged. -/
def collapseSpeakers (t : List Char) : List Char :=
  if (detectSpeakers t).length = 1 then
    pyStrip (pyReplace (pyReplace t (starSpeakerLabel 1) []) (speakerLabel 1) [])
  else t

/-- The transcript normalizer, source lines 212-233: boilerplate removal,
strip, single-speaker label collapse. -/
def cleanTranscript (raw : List Char) : List Char :=
  collapseSpeakers (pyStrip (removeBoilerplate raw))

/-- Observable side effects of a run, in order of occurrence: the audio
file read of line 147, the `generate_content` network call of line 186
(carrying the chosen model identifier), and the transcript file write of
line 268. -/
inductive PipeEvent where
  | fileRead : PipeEvent
  | netCall : List Char → PipeEvent
  | fileWrite : PipeEvent
deriving DecidableEq, Repr

/-- The failure taxonomy of the pipeline, named after the specification's
error kinds; each constructor corresponds to one `raise` site of the
source (`FileNotFoundError` line 137, `ValueError` lines 140, 73, 194,
208). -/
inductive TranscribeError where
  | notFound : TranscribeError
  | unsupportedFormat : TranscribeError
  | configError : TranscribeError
  | blocked : TranscribeError
  | extractError : TranscribeError
deriving DecidableEq, Repr

/-- One part of a candidate's content; `text` is `none` when the part has
no (or an empty) text attribute would be `some []`. -/
structure ResponsePart where
  text : Option (List Char)
deriving DecidableEq, Repr

/-- One candidate of the API response; `content` may be absent. -/
structure ResponseCandidate where
  content : Option (List ResponsePart)
deriving DecidableEq, Repr

/-- The API response: the candidate list and the `response.text` accessor,
which is `none` when accessing it raises `ValueError` (source line 199). -/
structure GeminiResponse where
  candidates : List ResponseCandidate
  textAttr : Option (List Char)
deriving DecidableEq, Repr

/-- The ambient world of one invocation: whether the input path exists,
the value of the `GOOGLE_AI_API_KEY` environment variable, and the
response the remote API would return. -/
structure Env where
  fileExists : Bool
  apiKey : Option (List Char)
  response : GeminiResponse
deriving DecidableEq, Repr

/-- Source lines 69-74: fetch the API key from the environment, failing
with a configuration error when it is missing. -/
def get_api_key (env : Env) : Except TranscribeError (List Char) :=
  match env.apiKey with
  | none => Except.error TranscribeError.configError
  | some k => Except.ok k

/-- The blocked-response test of source line 189: no candidates, or the
first candidate has no content, or its content has no parts. -/
def blockedResponse (r : GeminiResponse) : Bool :=
  match r.candidates with
  | [] => true
  | c :: _ =>
      match c.content with
      | none => true
      | some parts => parts.isEmpty

/-- The fallback extraction loop of source lines 202-206: the first part
with a non-empty text attribute. -/
def firstPartText (parts : List ResponsePart) : Option (List Char) :=
  parts.findSome? fun p =>
    match p.text with
    | some t => if t.isEmpty then none else some t
    | none => none

/-- Source lines 130-234 (`transcribe_audio`), as a pure function from the
environment to a result and the list of performed side effects, preserving
the source's order of operations: existence check, format check, model
lookup, file read, MIME lookup, API-key fetch, network call, blocked-response
check, text extraction, transcript cleanup. -/
def transcribe_audio (env : Env) (audio_path model_key : List Char) :
    Except TranscribeError (List Char) × List PipeEvent :=
  if !env.fileExists then (Except.error TranscribeError.notFound, [])
  else if !is_audio_file audio_path then (Except.error TranscribeError.unsupportedFormat, [])
  else
    let model_name := selectModel model_key
    let _mime := get_gemini_mime_type audio_path
    match get_api_key env with
    | Except.error e => (Except.error e, [PipeEvent.fileRead])
    | Except.ok _ =>
      let events := [PipeEvent.fileRead, PipeEvent.netCall model_name]
      if blockedResponse env.response then (Except.error TranscribeError.blocked, events)
      else
        match env.response.textAttr with
        | some t => (Except.ok (cleanTranscript t), events)
        | none =>
          match env.response.candidates with
          | [] => (Except.error TranscribeError.extractError, events)
          | c :: _ =>
            match c.content with
            | none => (Except.error TranscribeError.extractError, events)
            | some parts =>
              match firstPartText parts with
              | some t => (Except.ok (cleanTranscript t), events)
              | none => (Except.error TranscribeError.extractError, events)

/-- The user-facing message of each exception raised below `main`, with the
source's literal texts (lines 73, 137, 140, 194, 208). -/
def transcribeErrorText (audio_file : List Char) : TranscribeError → List Char
  | TranscribeError.notFound => "Audio file not found: ".toList ++ audio_file
  | TranscribeError.unsupportedFormat =>
      "File is not a supported audio format: ".toList ++ audio_file
  | TranscribeError.configError =>
      "GOOGLE_AI_API_KEY not found in environment variables. Please set it in .env file.".toList
  | TranscribeError.blocked =>
      ("Transcription was blocked due to content restrictions or the audio format " ++
        "is not supported.").toList
  | TranscribeError.extractError =>
      "Could not extract transcription from response.".toList

/-- Outcome of a CLI run: process exit code, side effects performed, and
the error line printed on failure (the source's decorative emoji prefix is
omitted). -/
structure RunResult where
  exitCode : Nat
  events : List PipeEvent
  errMsg : Option (List Char)
deriving DecidableEq, Repr

/-- Source lines 278-338 (`main`): pre-flight existence and format checks
with their own messages, then the pipeline; any error is caught, printed
and turned into exit code 1, and the transcript is written only on
success. -/
def main (env : Env) (audio_file model_key _output_dir : List Char) : RunResult :=
  if !env.fileExists then
    { exitCode := 1, events := [],
      errMsg := some ("Error: Audio file not found: ".toList ++ audio_file) }
  else if !is_audio_file audio_file then
    { exitCode := 1, events := [],
      errMsg := some "Error: File is not a supported audio format.".toList }
  else
    match transcribe_audio env audio_file model_key with
    | (Except.error e, evs) =>
        { exitCode := 1, events := evs,
          errMsg := some ("Error: ".toList ++ transcribeErrorText audio_file e) }
    | (Except.ok _, evs) =>
        { exitCode := 0, events := evs ++ [PipeEvent.fileWrite], errMsg := none }

/-- A response carrying the transcript `Hello` (used by concrete runs). -/
def okResponse : GeminiResponse :=
  { candidates := [{ content := some [{ text := some "Hello".toList }] }],
    textAttr := some "Hello".toList }

/-- A response with no candidates (safety-blocked). -/
def emptyResponse : GeminiResponse :=
  { candidates := [], textAttr := none }

/-- Environment for a successful run. -/
def envOk : Env :=
  { fileExists := true, apiKey := some "key".toList, response := okResponse }

/-- Environment with the API key missing. -/
def envNoKey : Env :=
  { fileExists := true, apiKey := none, response := okResponse }

/-- Environment whose API response is blocked. -/
def envBlocked : Env :=
  { fileExists := true, apiKey := some "key".toList, response := emptyResponse }

/-- Environment where the input path does not exist. -/
def envMissing : Env :=
  { fileExists := false, apiKey := some "key".toList, response := okResponse }

/-- Guard on the character preceding the current scan position: satisfied
at the start of the text or after a whitespace character. -/
def prevWS : Option Char → Bool
  | none => true
  | some c => isPyWS c

/-- Scan of a text recording the previously read character: every
occurrence of the word `Speaker` must be preceded by the start of the text
or whitespace and be immediately followed by ` 1:`.  Under this condition
the label removal of `collapseSpeakers` cannot re-form labels. -/
def spkOk : Option Char → List Char → Bool
  | _, [] => true
  | p, c :: t =>
      (if speakerWord.isPrefixOf (c :: t) then
        prevWS p && " 1:".toList.isPrefixOf ((c :: t).drop 7)
      else true)
      && spkOk (some c) t


deriving instance DecidableEq for Except

/-! ### Helper lemmas about the Python string primitives -/

theorem replTake_fuel (pat rep : List Char) (hpat : pat ≠ []) :
    ∀ (f g : Nat) (s : List Char), s.length ≤ f → s.length ≤ g →
      replTake pat rep f s = replTake pat rep g s := by
  intro f
  induction f with
  | zero =>
    intro g s hf _
    have hs : s = [] := List.eq_nil_of_length_eq_zero (Nat.le_zero.mp hf)
    subst hs
    cases g <;> rfl
  | succ f ih =>
    intro g s hf hg
    match s with
    | [] => cases g <;> rfl
    | c :: t =>
      have hpl : 1 ≤ pat.length := List.length_pos.mpr hpat
      match g with
      | 0 => exact absurd hg (by simp)
      | g + 1 =>
        show replTake pat rep (f + 1) (c :: t) = replTake pat rep (g + 1) (c :: t)
        simp only [replTake]
        by_cases h : pat.isPrefixOf (c :: t) = true
        · simp only [h, if_true]
          have hd : (List.drop pat.length (c :: t)).length ≤ t.length := by
            simp only [List.length_drop, List.length_cons]
            omega
          rw [ih g (List.drop pat.length (c :: t))
            (Nat.le_trans hd (Nat.le_of_succ_le_succ hf))
            (Nat.le_trans hd (Nat.le_of_succ_le_succ hg))]
        · simp only [Bool.not_eq_true] at h
          simp only [h, Bool.false_eq_true, if_false]
          rw [ih g t (Nat.le_of_succ_le_succ hf) (Nat.le_of_succ_le_succ hg)]

theorem pyReplace_nil (pat rep : List Char) : pyReplace [] pat rep = [] := by
  unfold pyReplace
  by_cases h : pat.isEmpty <;> simp [h, replTake]

theorem pat_ne_nil_of_not_isPrefixOf {pat : List Char} {c : Char} {t : List Char}
    (h : pat.isPrefixOf (c :: t) = false) : pat ≠ [] := by
  intro he
  subst he
  simp [List.isPrefixOf] at h

theorem isEmpty_false_of_ne_nil {pat : List Char} (h : pat ≠ []) : pat.isEmpty = false := by
  cases pat with
  | nil => exact absurd rfl h
  | cons a l => rfl

theorem pyReplace_cons_pos {pat : List Char} (rep : List Char) {c : Char} {t : List Char}
    (hpat : pat ≠ []) (h : pat.isPrefixOf (c :: t) = true) :
    pyReplace (c :: t) pat rep = rep ++ pyReplace (List.drop pat.length (c :: t)) pat rep := by
  have he := isEmpty_false_of_ne_nil hpat
  have hpl : 1 ≤ pat.length := List.length_pos.mpr hpat
  unfold pyReplace
  simp only [he, Bool.false_eq_true, if_false]
  show replTake pat rep (t.length + 1) (c :: t) = _
  simp only [replTake, h, if_true]
  congr 1
  refine replTake_fuel pat rep hpat _ _ _ ?_ (Nat.le_refl _)
  simp only [List.length_drop, List.length_cons]
  omega

theorem pyReplace_cons_neg {pat : List Char} (rep : List Char) {c : Char} {t : List Char}
    (h : pat.isPrefixOf (c :: t) = false) :
    pyReplace (c :: t) pat rep = c :: pyReplace t pat rep := by
  have hpat := pat_ne_nil_of_not_isPrefixOf h
  have he := isEmpty_false_of_ne_nil hpat
  unfold pyReplace
  simp only [he, Bool.false_eq_true, if_false]
  show replTake pat rep (t.length + 1) (c :: t) = _
  simp only [replTake, h, Bool.false_eq_true, if_false]

theorem occursB_nil (pat : List Char) : occursB pat [] = pat.isEmpty := rfl

theorem occursB_cons (pat : List Char) (c : Char) (t : List Char) :
    occursB pat (c :: t) = (pat.isPrefixOf (c :: t) || occursB pat t) := rfl

theorem occursB_of_isPrefixOf {pat s : List Char} (h : pat.isPrefixOf s = true) :
    occursB pat s = true := by
  cases s with
  | nil =>
    cases pat with
    | nil => rfl
    | cons a l => simp [List.isPrefixOf] at h
  | cons c t => simp [occursB_cons, h]

theorem pyReplace_of_not_occurs {pat s : List Char} (rep : List Char)
    (h : occursB pat s = false) : pyReplace s pat rep = s := by
  induction s with
  | nil => exact pyReplace_nil pat rep
  | cons c t ih =>
    rw [occursB_cons, Bool.or_eq_false_iff] at h
    rw [pyReplace_cons_neg rep h.1, ih h.2]


theorem occursB_iff_within (pat s : List Char) : occursB pat s = true ↔ pat <:+: s := by
  induction s with
  | nil =>
    rw [occursB_nil]
    constructor
    · intro h
      have : pat = [] := by
        cases pat with
        | nil => rfl
        | cons a l => simp [List.isEmpty] at h
      subst this
      exact List.infix_refl []
    · intro h
      have : pat = [] := List.eq_nil_of_infix_nil h
      subst this
      rfl
  | cons c t ih =>
    rw [occursB_cons, Bool.or_eq_true, List.infix_cons_iff, List.isPrefixOf_iff_prefix, ih]

theorem occursB_of_within {pat u v : List Char} (hinf : u <:+: v)
    (h : occursB pat u = true) : occursB pat v = true :=
  (occursB_iff_within pat v).mpr (((occursB_iff_within pat u).mp h).trans hinf)

theorem occursB_of_prefix_part {p q s : List Char}
    (h : occursB (p ++ q) s = true) : occursB p s = true :=
  (occursB_iff_within p s).mpr
    ((List.prefix_append p q).isInfix.trans ((occursB_iff_within (p ++ q) s).mp h))

theorem occursB_of_suffix_part {p q s : List Char}
    (h : occursB (p ++ q) s = true) : occursB q s = true :=
  (occursB_iff_within q s).mpr
    ((List.suffix_append p q).isInfix.trans ((occursB_iff_within (p ++ q) s).mp h))

theorem dropTrailWS_front (l : List Char) : dropTrailWS l <+: l := by
  unfold dropTrailWS
  rcases List.dropWhile_suffix (l := l.reverse) isPyWS with ⟨a, ha⟩
  refine ⟨a.reverse, ?_⟩
  have := congrArg List.reverse ha
  rwa [List.reverse_append, List.reverse_reverse] at this

theorem pyStrip_within (l : List Char) : pyStrip l <:+: l := by
  unfold pyStrip
  exact ((dropTrailWS_front (l.dropWhile isPyWS)).isInfix).trans
    (List.dropWhile_suffix isPyWS).isInfix


theorem dropTrailWS_nil : dropTrailWS [] = [] := rfl

theorem dropTrailWS_eq_nil_iff (l : List Char) :
    dropTrailWS l = [] ↔ List.dropWhile isPyWS l.reverse = [] := by
  unfold dropTrailWS
  exact List.reverse_eq_nil_iff

theorem dropTrailWS_cons_nil_pos {t : List Char} {c : Char}
    (ht : dropTrailWS t = []) (hc : isPyWS c = true) : dropTrailWS (c :: t) = [] := by
  rw [dropTrailWS_eq_nil_iff] at ht ⊢
  rw [List.reverse_cons, List.dropWhile_append, ht]
  simp [List.dropWhile, hc]

theorem dropTrailWS_cons_nil_neg {t : List Char} {c : Char}
    (ht : dropTrailWS t = []) (hc : isPyWS c = false) : dropTrailWS (c :: t) = [c] := by
  rw [dropTrailWS_eq_nil_iff] at ht
  unfold dropTrailWS
  rw [List.reverse_cons, List.dropWhile_append, ht]
  simp [List.dropWhile, hc]

theorem dropTrailWS_cons_ne {t : List Char} (c : Char)
    (ht : dropTrailWS t ≠ []) : dropTrailWS (c :: t) = c :: dropTrailWS t := by
  have ht' : List.dropWhile isPyWS t.reverse ≠ [] := fun h =>
    ht ((dropTrailWS_eq_nil_iff t).mpr h)
  unfold dropTrailWS
  rw [List.reverse_cons, List.dropWhile_append]
  have : (List.dropWhile isPyWS t.reverse).isEmpty = false := by
    cases h : List.dropWhile isPyWS t.reverse with
    | nil => exact absurd h ht'
    | cons a l => rfl
  rw [this]
  simp

theorem dropWhile_dropTrailWS_comm (l : List Char) :
    List.dropWhile isPyWS (dropTrailWS l) = dropTrailWS (List.dropWhile isPyWS l) := by
  induction l with
  | nil => rfl
  | cons c t ih =>
    by_cases hc : isPyWS c = true
    · have hdw : List.dropWhile isPyWS (c :: t) = List.dropWhile isPyWS t := by
        simp [List.dropWhile, hc]
      rw [hdw]
      by_cases ht : dropTrailWS t = []
      · rw [dropTrailWS_cons_nil_pos ht hc]
        have : List.dropWhile isPyWS (dropTrailWS t) = [] := by rw [ht]; rfl
        rw [this] at ih
        rw [← ih]
        rfl
      · rw [dropTrailWS_cons_ne c ht]
        have : List.dropWhile isPyWS (c :: dropTrailWS t) = List.dropWhile isPyWS (dropTrailWS t) := by
          simp [List.dropWhile, hc]
        rw [this, ih]
    · have hc' : isPyWS c = false := by
        cases h : isPyWS c with
        | true => exact absurd h hc
        | false => rfl
      have hdw : List.dropWhile isPyWS (c :: t) = c :: t := by
        simp [List.dropWhile, hc']
      rw [hdw]
      by_cases ht : dropTrailWS t = []
      · rw [dropTrailWS_cons_nil_neg ht hc']
        simp [List.dropWhile, hc']
      · rw [dropTrailWS_cons_ne c ht]
        simp [List.dropWhile, hc']

theorem dropTrailWS_idem (l : List Char) : dropTrailWS (dropTrailWS l) = dropTrailWS l := by
  unfold dropTrailWS
  rw [List.reverse_reverse, List.dropWhile_idempotent]

theorem pyStrip_idem (l : List Char) : pyStrip (pyStrip l) = pyStrip l := by
  unfold pyStrip
  rw [dropWhile_dropTrailWS_comm, List.dropWhile_idempotent, dropTrailWS_idem]


/-! ### Lemmas about the speaker-label scan -/

theorem spkOk_cons (p : Option Char) (c : Char) (t : List Char) :
    spkOk p (c :: t) =
      ((if speakerWord.isPrefixOf (c :: t) then
          prevWS p && " 1:".toList.isPrefixOf ((c :: t).drop 7)
        else true) && spkOk (some c) t) := rfl

theorem spkOk_tail {p : Option Char} {c : Char} {t : List Char}
    (h : spkOk p (c :: t) = true) : spkOk (some c) t = true := by
  rw [spkOk_cons, Bool.and_eq_true] at h
  exact h.2

theorem spkOk_guard {p : Option Char} {c : Char} {t : List Char}
    (h : spkOk p (c :: t) = true) (hpre : speakerWord.isPrefixOf (c :: t) = true) :
    prevWS p = true ∧ " 1:".toList.isPrefixOf ((c :: t).drop 7) = true := by
  rw [spkOk_cons, Bool.and_eq_true] at h
  have h1 := h.1
  rw [hpre] at h1
  simp only [if_true] at h1
  rw [Bool.and_eq_true] at h1
  exact h1

theorem spkOk_head_ws {b : Char} {t : List Char} (h : spkOk (some b) t = true)
    (hpre : speakerWord.isPrefixOf t = true) : isPyWS b = true := by
  match t with
  | [] => exact absurd hpre (by decide)
  | c :: t' => exact (spkOk_guard h hpre).1

theorem spkOk_label_append {p : Option Char} {u : List Char}
    (h : spkOk p (speakerLabel 1 ++ u) = true) : spkOk (some ':') u = true := by
  have he : speakerLabel 1 ++ u =
      'S' :: 'p' :: 'e' :: 'a' :: 'k' :: 'e' :: 'r' :: ' ' :: '1' :: ':' :: u := rfl
  rw [he] at h
  exact spkOk_tail (spkOk_tail (spkOk_tail (spkOk_tail (spkOk_tail (spkOk_tail
    (spkOk_tail (spkOk_tail (spkOk_tail (spkOk_tail h)))))))))

theorem speakerWord_no_ws : ∀ x ∈ speakerWord, isPyWS x = false := by decide

theorem speakerWord_prefix_label : speakerWord <+: speakerLabel 1 :=
  ⟨" 1:".toList, rfl⟩

theorem spkOk_trace : ∀ (t β : List Char) (q : Option Char),
    (∃ α : List Char, α ≠ [] ∧ α ++ β = speakerWord) → spkOk q t = true →
    β.isPrefixOf (pyReplace t (speakerLabel 1) []) = true →
    β.isPrefixOf t = true ∨ (speakerLabel 1).isPrefixOf t = true := by
  intro t
  induction t with
  | nil =>
    intro β q _ _ hpre
    rw [pyReplace_nil] at hpre
    cases β with
    | nil => exact Or.inl rfl
    | cons b β' => exact absurd hpre (by simp [List.isPrefixOf])
  | cons c t' ih =>
    intro β q hβ hok hpre
    by_cases hlab : (speakerLabel 1).isPrefixOf (c :: t') = true
    · exact Or.inr hlab
    · have hlab' : (speakerLabel 1).isPrefixOf (c :: t') = false :=
        Bool.eq_false_iff.mpr hlab
      rw [pyReplace_cons_neg [] hlab'] at hpre
      cases β with
      | nil => exact Or.inl rfl
      | cons b β' =>
        rw [show (b :: β').isPrefixOf (c :: pyReplace t' (speakerLabel 1) []) =
            (b == c && β'.isPrefixOf (pyReplace t' (speakerLabel 1) [])) from rfl,
          Bool.and_eq_true] at hpre
        obtain ⟨hbc, hpre'⟩ := hpre
        have hbc' : b = c := beq_iff_eq.mp hbc
        subst hbc'
        rcases hβ with ⟨α, hα, hαβ⟩
        have hβ' : ∃ α : List Char, α ≠ [] ∧ α ++ β' = speakerWord :=
          ⟨α ++ [b], by simp, by rw [List.append_assoc]; simpa using hαβ⟩
        rcases ih β' (some b) hβ' (spkOk_tail hok) hpre' with h | h
        · refine Or.inl ?_
          rw [show (b :: β').isPrefixOf (b :: t') = (b == b && β'.isPrefixOf t') from rfl, h]
          simp
        · exfalso
          have hspk : speakerWord.isPrefixOf t' = true := by
            rw [List.isPrefixOf_iff_prefix] at h ⊢
            exact speakerWord_prefix_label.trans h
          have hb : isPyWS b = true := spkOk_head_ws (spkOk_tail hok) hspk
          have hbmem : b ∈ speakerWord := by
            rw [← hαβ]
            exact List.mem_append.mpr (Or.inr (List.mem_cons_self b β'))
          rw [speakerWord_no_ws b hbmem] at hb
          exact absurd hb (by simp)

theorem speakerWord_length : speakerWord.length = 7 := rfl

theorem label_ne_nil : speakerLabel 1 ≠ [] := by decide

theorem spkOk_no_speaker : ∀ (n : Nat) (t : List Char) (q : Option Char), t.length ≤ n →
    spkOk q t = true →
    occursB speakerWord (pyReplace t (speakerLabel 1) []) = false := by
  intro n
  induction n with
  | zero =>
    intro t q hlen _
    have ht : t = [] := List.eq_nil_of_length_eq_zero (Nat.le_zero.mp hlen)
    subst ht
    rw [pyReplace_nil]
    rfl
  | succ n ih =>
    intro t q hlen hok
    match t with
    | [] => rw [pyReplace_nil]; rfl
    | c :: t' =>
      by_cases hlab : (speakerLabel 1).isPrefixOf (c :: t') = true
      · rcases List.isPrefixOf_iff_prefix.mp hlab with ⟨u, hu⟩
        rw [pyReplace_cons_pos [] label_ne_nil hlab]
        have hdrop : List.drop (speakerLabel 1).length (c :: t') = u := by
          rw [← hu]
          exact List.drop_left _ _
        rw [hdrop]
        have hok' : spkOk (some ':') u = true := by
          refine spkOk_label_append (p := q) ?_
          rw [hu]
          exact hok
        have hlen' : u.length ≤ n := by
          have hl := congrArg List.length hu
          simp only [List.length_append, List.length_cons] at hl
          have h10 : (speakerLabel 1).length = 10 := rfl
          rw [h10] at hl
          simp only [List.length_cons] at hlen
          omega
        simpa using ih u (some ':') hlen' hok'
      · have hlab' : (speakerLabel 1).isPrefixOf (c :: t') = false :=
          Bool.eq_false_iff.mpr hlab
        rw [pyReplace_cons_neg [] hlab']
        rw [occursB_cons, Bool.or_eq_false_iff]
        have hlen' : t'.length ≤ n := by
          simp only [List.length_cons] at hlen
          omega
        refine ⟨?_, ih t' (some c) hlen' (spkOk_tail hok)⟩
        cases hp : speakerWord.isPrefixOf (c :: pyReplace t' (speakerLabel 1) []) with
        | false => rfl
        | true =>
          exfalso
          rw [show speakerWord.isPrefixOf (c :: pyReplace t' (speakerLabel 1) []) =
              ('S' == c && "peaker".toList.isPrefixOf (pyReplace t' (speakerLabel 1) []))
              from rfl, Bool.and_eq_true] at hp
          obtain ⟨hSc, hpk⟩ := hp
          have hSc' : c = 'S' := (beq_iff_eq.mp hSc).symm
          rcases spkOk_trace t' "peaker".toList (some c)
              ⟨['S'], by simp, by decide⟩ (spkOk_tail hok) hpk with h | h
          · subst hSc'
            have hspk : speakerWord.isPrefixOf ('S' :: t') = true := by
              rw [show speakerWord.isPrefixOf ('S' :: t') =
                  ('S' == 'S' && "peaker".toList.isPrefixOf t') from rfl, h]
              simp
            have hg := (spkOk_guard hok hspk).2
            have hfull : (speakerLabel 1).isPrefixOf ('S' :: t') = true := by
              rw [List.isPrefixOf_iff_prefix] at hspk hg ⊢
              rcases hspk with ⟨w, hw⟩
              rcases hg with ⟨v, hv⟩
              have hdrop7 : List.drop 7 ('S' :: t') = w := by
                rw [← hw, ← speakerWord_length]
                exact List.drop_left _ _
              rw [hdrop7] at hv
              refine ⟨v, ?_⟩
              calc speakerLabel 1 ++ v
                  = speakerWord ++ (" 1:".toList ++ v) := by
                    rw [show speakerLabel 1 = speakerWord ++ " 1:".toList from rfl,
                      List.append_assoc]
                _ = speakerWord ++ w := by rw [hv]
                _ = 'S' :: t' := hw
            exact absurd hfull hlab
          · have hspk' : speakerWord.isPrefixOf t' = true := by
              rw [List.isPrefixOf_iff_prefix] at h ⊢
              exact speakerWord_prefix_label.trans h
            have hws := spkOk_head_ws (spkOk_tail hok) hspk'
            rw [hSc'] at hws
            exact absurd hws (by decide)

theorem spkOk_no_star : ∀ (t : List Char) (q : Option Char), spkOk q t = true →
    occursB (starSpeakerLabel 1) t = false := by
  intro t
  induction t with
  | nil => intro q _; rfl
  | cons c t' ih =>
    intro q hok
    rw [occursB_cons, Bool.or_eq_false_iff]
    refine ⟨?_, ih (some c) (spkOk_tail hok)⟩
    cases hp : (starSpeakerLabel 1).isPrefixOf (c :: t') with
    | false => rfl
    | true =>
      exfalso
      rw [show (starSpeakerLabel 1).isPrefixOf (c :: t') =
          ('*' == c && "*Speaker 1:**".toList.isPrefixOf t') from rfl,
        Bool.and_eq_true] at hp
      obtain ⟨_, hp2⟩ := hp
      match t', hp2 with
      | [], h2 => exact absurd h2 (by decide)
      | d :: t'', h2 =>
        rw [show "*Speaker 1:**".toList.isPrefixOf (d :: t'') =
            ('*' == d && "Speaker 1:**".toList.isPrefixOf t'') from rfl,
          Bool.and_eq_true] at h2
        obtain ⟨hd, h22⟩ := h2
        have hspk : speakerWord.isPrefixOf t'' = true := by
          rw [List.isPrefixOf_iff_prefix] at h22 ⊢
          have hsw : speakerWord <+: "Speaker 1:**".toList := ⟨" 1:**".toList, rfl⟩
          exact hsw.trans h22
        have hws := spkOk_head_ws (spkOk_tail (spkOk_tail hok)) hspk
        rw [← beq_iff_eq.mp hd] at hws
        exact absurd hws (by decide)


/-! ### Lemmas for the speaker-label collapse and the normalizer -/

theorem lab1_split : speakerLabel 1 = speakerWord ++ " 1:".toList := rfl

theorem star1_split : starSpeakerLabel 1 = "**".toList ++ "Speaker 1:**".toList := rfl

theorem star1_split2 : "Speaker 1:**".toList = speakerWord ++ " 1:**".toList := rfl

theorem occursB_speaker_of_label {x : List Char}
    (h : occursB (speakerLabel 1) x = true) : occursB speakerWord x = true := by
  rw [lab1_split] at h
  exact occursB_of_prefix_part h

theorem occursB_speaker_of_star {x : List Char}
    (h : occursB (starSpeakerLabel 1) x = true) : occursB speakerWord x = true := by
  rw [star1_split] at h
  have h2 := occursB_of_suffix_part h
  rw [star1_split2] at h2
  exact occursB_of_prefix_part h2

theorem collapseSpeakers_of_one {t : List Char}
    (hcard : (detectSpeakers t).length = 1) :
    collapseSpeakers t =
      pyStrip (pyReplace (pyReplace t (starSpeakerLabel 1) []) (speakerLabel 1) []) := by
  unfold collapseSpeakers
  rw [if_pos hcard]

theorem collapse_removes_labels {t : List Char} (hok : spkOk none t = true)
    (hcard : (detectSpeakers t).length = 1) :
    occursB (speakerLabel 1) (collapseSpeakers t) = false ∧
      occursB (starSpeakerLabel 1) (collapseSpeakers t) = false := by
  rw [collapseSpeakers_of_one hcard]
  have hstar : pyReplace t (starSpeakerLabel 1) [] = t :=
    pyReplace_of_not_occurs [] (spkOk_no_star t none hok)
  rw [hstar]
  have hspk : occursB speakerWord (pyReplace t (speakerLabel 1) []) = false :=
    spkOk_no_speaker t.length t none (Nat.le_refl _) hok
  constructor
  · cases h : occursB (speakerLabel 1) (pyStrip (pyReplace t (speakerLabel 1) [])) with
    | false => rfl
    | true =>
      exfalso
      have := occursB_speaker_of_label
        (occursB_of_within (pyStrip_within (pyReplace t (speakerLabel 1) [])) h)
      rw [hspk] at this
      exact absurd this (by simp)
  · cases h : occursB (starSpeakerLabel 1) (pyStrip (pyReplace t (speakerLabel 1) [])) with
    | false => rfl
    | true =>
      exfalso
      have := occursB_speaker_of_star
        (occursB_of_within (pyStrip_within (pyReplace t (speakerLabel 1) [])) h)
      rw [hspk] at this
      exact absurd this (by simp)

theorem collapseSpeakers_id_of_two {t : List Char}
    (h1 : 1 ∈ detectSpeakers t) (h2 : 2 ∈ detectSpeakers t) :
    collapseSpeakers t = t := by
  unfold collapseSpeakers
  rw [if_neg]
  intro hcard
  rcases List.length_eq_one.mp hcard with ⟨a, ha⟩
  rw [ha] at h1 h2
  simp only [List.mem_singleton] at h1 h2
  omega

theorem pyReplace_head {pat : List Char} (rep u : List Char) (hpat : pat ≠ []) :
    pyReplace (pat ++ u) pat rep = rep ++ pyReplace u pat rep := by
  match pat, hpat with
  | p :: ps, _ =>
    have hne : p :: ps ≠ [] := by simp
    have hpre : (p :: ps).isPrefixOf (p :: (ps ++ u)) = true := by
      rw [← List.cons_append]
      exact List.isPrefixOf_iff_prefix.mpr (List.prefix_append _ _)
    rw [List.cons_append, pyReplace_cons_pos rep hne hpre]
    congr 1
    rw [show List.drop (p :: ps).length (p :: (ps ++ u)) = u from by
      rw [← List.cons_append]; exact List.drop_left _ _]

theorem removeBoilerplate_of_no_occurs {t : List Char}
    (h1 : occursB bp1 t = false) (h2 : occursB bp2 t = false)
    (h3 : occursB bp3 t = false) : removeBoilerplate t = t := by
  unfold removeBoilerplate
  rw [pyReplace_of_not_occurs [] h1, pyReplace_of_not_occurs [] h2,
    pyReplace_of_not_occurs [] h3]

theorem occursB_false_of_within {pat u v : List Char} (hinf : u <:+: v)
    (h : occursB pat v = false) : occursB pat u = false := by
  cases hu : occursB pat u with
  | false => rfl
  | true =>
    rw [occursB_of_within hinf hu] at h
    exact absurd h (by simp)

/-! ### Lemmas for the description clean-up -/

theorem collapseRunsAux_word {s : List Char}
    (hs : ∀ c ∈ s, (isWordChar c || isPyWS c || c = '-') = true) :
    ∀ (b : Bool), ∀ c ∈ collapseRunsAux b s, isWordChar c = true := by
  induction s with
  | nil =>
    intro b c hc
    rw [show collapseRunsAux b [] = [] from rfl] at hc
    exact absurd hc (List.not_mem_nil c)
  | cons d s' ih =>
    intro b c hc
    have hd := hs d (List.mem_cons_self d s')
    have hs' : ∀ c ∈ s', (isWordChar c || isPyWS c || c = '-') = true :=
      fun c hc => hs c (List.mem_cons_of_mem d hc)
    by_cases hdash : isDashWS d = true
    · rw [show collapseRunsAux b (d :: s') =
          (if isDashWS d then
            (if b then collapseRunsAux true s' else '_' :: collapseRunsAux true s')
          else d :: collapseRunsAux false s') from rfl, hdash] at hc
      simp only [if_true] at hc
      cases b with
      | true => exact ih hs' true c hc
      | false =>
        simp only [Bool.false_eq_true, if_false] at hc
        rcases List.mem_cons.mp hc with h | h
        · subst h; rfl
        · exact ih hs' true c h
    · have hdash' : isDashWS d = false := Bool.eq_false_iff.mpr hdash
      rw [show collapseRunsAux b (d :: s') =
          (if isDashWS d then
            (if b then collapseRunsAux true s' else '_' :: collapseRunsAux true s')
          else d :: collapseRunsAux false s') from rfl, hdash'] at hc
      simp only [Bool.false_eq_true, if_false] at hc
      rcases List.mem_cons.mp hc with h | h
      · subst h
        unfold isDashWS at hdash'
        rw [Bool.or_eq_false_iff] at hdash'
        rw [hdash'.1, hdash'.2] at hd
        simpa using hd
      · exact ih hs' false c h


theorem transcript_word : ∀ x ∈ "transcript".toList, isWordChar x = true := by decide

theorem outIf_spec (d4 : List Char) (hlen : d4.length ≤ 50)
    (hword : ∀ c ∈ d4, isWordChar c = true) :
    (if d4.isEmpty then "transcript".toList else d4) ≠ [] ∧
      (if d4.isEmpty then "transcript".toList else d4).length ≤ 50 ∧
      ∀ c ∈ (if d4.isEmpty then "transcript".toList else d4), isWordChar c = true := by
  by_cases h : d4.isEmpty = true
  · rw [if_pos h]
    exact ⟨by simp, by simp, transcript_word⟩
  · rw [if_neg h]
    refine ⟨?_, hlen, hword⟩
    intro hnil
    exact h (by rw [hnil]; rfl)

theorem midIf_spec (X : List Char) (hX : ∀ c ∈ X, isWordChar c = true) :
    ((if 50 < X.length then X.take 50 else X).length ≤ 50) ∧
      (∀ c ∈ (if 50 < X.length then X.take 50 else X), isWordChar c = true) := by
  by_cases h : 50 < X.length
  · rw [if_pos h]
    exact ⟨by rw [List.length_take]; omega, fun c hc => hX c (List.mem_of_mem_take hc)⟩
  · rw [if_neg h]
    exact ⟨by omega, hX⟩

theorem cleanDescription_spec (d : List Char) :
    cleanDescription d ≠ [] ∧ (cleanDescription d).length ≤ 50 ∧
      ∀ c ∈ cleanDescription d, isWordChar c = true := by
  have hbase : ∀ x ∈ collapseDashWS
      (d.filter (fun c => isWordChar c || isPyWS c || c = '-')), isWordChar x = true :=
    collapseRunsAux_word (fun x hx => (List.mem_filter.mp hx).2) false
  have hmid := midIf_spec _ hbase
  have hout := outIf_spec _ hmid.1 hmid.2
  exact hout

theorem descriptionOf_spec (t : List Char) :
    descriptionOf t ≠ [] ∧ (descriptionOf t).length ≤ 50 ∧
      ∀ c ∈ descriptionOf t, isWordChar c = true :=
  cleanDescription_spec (rawDescriptionOf t)


theorem fsSafe_of_word {c : Char} (h : isWordChar c = true) : fsSafe c = true := by
  unfold isWordChar at h
  unfold fsSafe
  rw [Bool.or_eq_true] at h
  rcases h with h | h
  · rw [h]
    simp
  · rw [h]
    simp

theorem generate_form (t orig : List Char) (now : PyDateTime) :
    generate_descriptive_filename t orig now =
      descriptionOf t ++ ['_'] ++ pathStem orig ++ ['_'] ++
        strftimeTimestamp now ++ ".md".toList := rfl

/-! ### Claim C1 -/

/-- Counterexample to C1: for the empty transcript and the path `a?b.mp3`
the synthesized filename embeds the stem `a?b` verbatim, so it contains the
character `?`, which is not filesystem-safe; the filename is not made of
filesystem-safe characters only. -/
theorem c1_counterexample :
    ¬ (∀ c ∈ generate_descriptive_filename [] "a?b.mp3".toList
        { year := 2026, month := 1, day := 2, hour := 3, minute := 4, second := 5 },
        fsSafe c = true) := by decide

/-- C1 (amended): for every transcript, path and instant, the synthesized
filename has the form `description ++ "_" ++ stem ++ "_" ++ timestamp ++
".md"`, is non-empty and ends in `.md`; the description component is
non-empty (with fallback `transcript`), at most 50 characters long and
contains only filesystem-safe characters.  The original stem is embedded
verbatim, so the filename as a whole is filesystem-safe and length-bounded
only insofar as the stem is. -/
theorem c1_amended (t orig : List Char) (now : PyDateTime) :
    generate_descriptive_filename t orig now =
      descriptionOf t ++ ['_'] ++ pathStem orig ++ ['_'] ++
        strftimeTimestamp now ++ ".md".toList ∧
    generate_descriptive_filename t orig now ≠ [] ∧
    ".md".toList <:+ generate_descriptive_filename t orig now ∧
    descriptionOf t ≠ [] ∧ (descriptionOf t).length ≤ 50 ∧
    ∀ c ∈ descriptionOf t, fsSafe c = true := by
  obtain ⟨hne, hlen, hword⟩ := descriptionOf_spec t
  have hsuf : ".md".toList <:+ generate_descriptive_filename t orig now := by
    rw [show generate_descriptive_filename t orig now =
        (descriptionOf t ++ ['_'] ++ pathStem orig ++ ['_'] ++ strftimeTimestamp now) ++
          ".md".toList from by rw [generate_form]]
    exact List.suffix_append _ _
  refine ⟨generate_form t orig now, ?_, hsuf, hne, hlen,
    fun c hc => fsSafe_of_word (hword c hc)⟩
  intro hnil
  rcases hsuf with ⟨a, ha⟩
  rw [hnil] at ha
  exact absurd ha.symm (by simp)

/-! ### Claim C10 -/

/-- C10: the original audio file stem is embedded verbatim, with no
sanitization, as an infix of the synthesized filename, for every
transcript, path and instant. -/
theorem c10_stem_verbatim (t orig : List Char) (now : PyDateTime) :
    pathStem orig <:+: generate_descriptive_filename t orig now := by
  refine ⟨descriptionOf t ++ ['_'], ['_'] ++ strftimeTimestamp now ++ ".md".toList, ?_⟩
  rw [generate_form]
  simp [List.append_assoc]


/-! ### Claim C2 -/

/-- Counterexample to C2: in `see Speaker 1: hi` every speaker-label
occurrence is a speaker-1 label (no other label and no starred form
occurs), yet the normalizer keeps the label, because no line of the text
starts with `Speaker ` and the scan therefore detects no speaker. -/
theorem c2_counterexample :
    occursB (speakerLabel 1) "see Speaker 1: hi".toList = true ∧
    ((List.range' 2 8).all (fun i => !occursB (speakerLabel i) "see Speaker 1: hi".toList &&
        !occursB (starSpeakerLabel i) "see Speaker 1: hi".toList)) = true ∧
    occursB (starSpeakerLabel 1) "see Speaker 1: hi".toList = false ∧
    occursB (speakerLabel 1) (cleanTranscript "see Speaker 1: hi".toList) = true := by
  decide

/-- C2 (amended): when the line scan detects exactly the speaker set
consisting of one element and every occurrence of the word `Speaker` in
the text is preceded by the start of the text or whitespace and followed
by ` 1:` (so that removal cannot re-form a label), the output of the
speaker-collapse step contains zero occurrences of `Speaker 1:` and
`**Speaker 1:**`; and when the scan detects both speakers 1 and 2, the
text is left untouched. -/
theorem c2_amended (t : List Char) :
    (spkOk none t = true → (detectSpeakers t).length = 1 →
      occursB (speakerLabel 1) (collapseSpeakers t) = false ∧
        occursB (starSpeakerLabel 1) (collapseSpeakers t) = false) ∧
    (1 ∈ detectSpeakers t → 2 ∈ detectSpeakers t → collapseSpeakers t = t) :=
  ⟨fun hok hcard => collapse_removes_labels hok hcard,
    fun h1 h2 => collapseSpeakers_id_of_two h1 h2⟩

/-- Witness for the amended C2 at two concrete transcripts. -/
theorem c2_amended_witness :
    (occursB (speakerLabel 1)
        (collapseSpeakers "Speaker 1: hello\nSpeaker 1: bye".toList) = false ∧
      occursB (starSpeakerLabel 1)
        (collapseSpeakers "Speaker 1: hello\nSpeaker 1: bye".toList) = false) ∧
    collapseSpeakers "Speaker 1: one\nSpeaker 2: two".toList =
      "Speaker 1: one\nSpeaker 2: two".toList :=
  ⟨(c2_amended "Speaker 1: hello\nSpeaker 1: bye".toList).1 (by decide) (by decide),
    (c2_amended "Speaker 1: one\nSpeaker 2: two".toList).2 (by decide) (by decide)⟩

/-! ### Claim C3 -/

/-- Counterexample to C3: the boilerplate replacement can re-form a removed
phrase, so a second application of the normalizer changes the text again. -/
theorem c3_counterexample :
    cleanTranscript (cleanTranscript "# Transcriptio# Transcription\n\nn\n\nhello".toList) ≠
      cleanTranscript "# Transcriptio# Transcription\n\nn\n\nhello".toList := by
  decide

/-- C3 (amended): normalization is idempotent on every text containing no
occurrence of the three boilerplate phrases and for which the speaker scan
of the stripped text does not detect exactly one speaker. -/
theorem c3_amended (t : List Char) (h1 : occursB bp1 t = false)
    (h2 : occursB bp2 t = false) (h3 : occursB bp3 t = false)
    (hs : (detectSpeakers (pyStrip t)).length ≠ 1) :
    cleanTranscript (cleanTranscript t) = cleanTranscript t := by
  have hrb : removeBoilerplate t = t := removeBoilerplate_of_no_occurs h1 h2 h3
  have hclean : cleanTranscript t = pyStrip t := by
    unfold cleanTranscript
    rw [hrb]
    unfold collapseSpeakers
    rw [if_neg hs]
  rw [hclean]
  have hinf : pyStrip t <:+: t := pyStrip_within t
  have h1' := occursB_false_of_within hinf h1
  have h2' := occursB_false_of_within hinf h2
  have h3' := occursB_false_of_within hinf h3
  unfold cleanTranscript
  rw [removeBoilerplate_of_no_occurs h1' h2' h3', pyStrip_idem]
  unfold collapseSpeakers
  rw [if_neg hs]

/-- Witness for the amended C3 at a concrete transcript. -/
theorem c3_amended_witness :
    cleanTranscript (cleanTranscript "  hello world ".toList) =
      cleanTranscript "  hello world ".toList :=
  c3_amended "  hello world ".toList (by decide) (by decide) (by decide) (by decide)

/-! ### Claim C4 -/

/-- Counterexample to C4: a boilerplate phrase occurring in the middle of
the text, not as a prefix, is removed by the normalizer rather than left
unchanged. -/
theorem c4_counterexample :
    occursB bp3 "hello\nHere\x27s the transcription:\nworld".toList = true ∧
    bp3.isPrefixOf "hello\nHere\x27s the transcription:\nworld".toList = false ∧
    cleanTranscript "hello\nHere\x27s the transcription:\nworld".toList =
      "hello\nworld".toList := by
  decide

/-- C4 (amended): the boilerplate phrases are removed at every occurrence
anywhere in the text, not only as prefixes: a text containing none of the
phrases is left unchanged by the boilerplate step, and a text beginning
with the `# Transcription` header loses that prefix. -/
theorem c4_amended (t : List Char) :
    (occursB bp1 t = false → occursB bp2 t = false → occursB bp3 t = false →
      removeBoilerplate t = t) ∧
    removeBoilerplate (bp1 ++ t) = removeBoilerplate t := by
  constructor
  · exact fun h1 h2 h3 => removeBoilerplate_of_no_occurs h1 h2 h3
  · unfold removeBoilerplate
    rw [pyReplace_head [] t (by decide)]
    simp

/-- Witness for the amended C4 at a concrete text. -/
theorem c4_amended_witness :
    removeBoilerplate "plain text".toList = "plain text".toList ∧
    removeBoilerplate (bp1 ++ "plain text".toList) = removeBoilerplate "plain text".toList :=
  ⟨(c4_amended "plain text".toList).1 (by decide) (by decide) (by decide),
    (c4_amended "plain text".toList).2⟩


/-! ### Claim C5 -/

/-- C5: paths whose lower-cased extension is a key of the table get the
table's MIME value; any other extension gets the default `audio/mp4` and is
rejected by the validator; and a rejected path makes the CLI exit with
code 1 before any network call. -/
theorem c5_mime (p m : List Char) :
    (AUDIO_EXTENSIONS_TO_MIME.lookup (lowerStr (pathSuffix p)) = some m →
      get_gemini_mime_type p = m) ∧
    (AUDIO_EXTENSIONS_TO_MIME.lookup (lowerStr (pathSuffix p)) = none →
      get_gemini_mime_type p = "audio/mp4".toList ∧ is_audio_file p = false) ∧
    (∀ (env : Env) (mk out : List Char), is_audio_file p = false →
      (main env p mk out).exitCode = 1 ∧
        ∀ mn, PipeEvent.netCall mn ∉ (main env p mk out).events) := by
  refine ⟨?_, ?_, ?_⟩
  · intro h
    unfold get_gemini_mime_type
    rw [h]
    rfl
  · intro h
    unfold get_gemini_mime_type is_audio_file
    rw [h]
    exact ⟨rfl, rfl⟩
  · intro env mk out h
    cases hex : env.fileExists with
    | false =>
      unfold main
      rw [hex]
      simp
    | true =>
      unfold main
      rw [hex, h]
      simp

/-- Witness for C5 at the concrete paths `X.MP3` (supported, upper case)
and `x.txt` (unsupported). -/
theorem c5_mime_witness :
    get_gemini_mime_type "X.MP3".toList = "audio/mpeg".toList ∧
    get_gemini_mime_type "x.txt".toList = "audio/mp4".toList ∧
    is_audio_file "x.txt".toList = false ∧
    (main envOk "x.txt".toList "flash".toList [] ).exitCode = 1 ∧
    ∀ mn, PipeEvent.netCall mn ∉ (main envOk "x.txt".toList "flash".toList [] ).events :=
  ⟨(c5_mime "X.MP3".toList "audio/mpeg".toList).1 (by decide),
    ((c5_mime "x.txt".toList []).2.1 (by decide)).1,
    ((c5_mime "x.txt".toList []).2.1 (by decide)).2,
    ((c5_mime "x.txt".toList []).2.2 envOk "flash".toList [] (by decide)).1,
    ((c5_mime "x.txt".toList []).2.2 envOk "flash".toList [] (by decide)).2⟩

/-! ### Claim C6 -/

/-- Counterexample to C6: with the API key missing but the file present and
supported, the pipeline does fail with the configuration error, but only
after the audio file has been read: the file-read effect is in the trace,
contradicting "before any I/O is performed". -/
theorem c6_counterexample :
    (transcribe_audio envNoKey "a.mp3".toList "flash".toList).1 =
      Except.error TranscribeError.configError ∧
    PipeEvent.fileRead ∈ (transcribe_audio envNoKey "a.mp3".toList "flash".toList).2 := by
  decide

/-- C6 (amended): when the API key is missing, the run fails with the
configuration error before any network activity, but after the audio file
has been read: the trace is exactly the file read. -/
theorem c6_amended (env : Env) (p mk : List Char) (hex : env.fileExists = true)
    (haud : is_audio_file p = true) (hkey : env.apiKey = none) :
    (transcribe_audio env p mk).1 = Except.error TranscribeError.configError ∧
    (transcribe_audio env p mk).2 = [PipeEvent.fileRead] := by
  unfold transcribe_audio get_api_key
  rw [hex, haud, hkey]
  simp

/-- Witness for the amended C6 at a concrete environment. -/
theorem c6_amended_witness :
    (transcribe_audio envNoKey "b.mp3".toList "pro".toList).1 =
      Except.error TranscribeError.configError ∧
    (transcribe_audio envNoKey "b.mp3".toList "pro".toList).2 = [PipeEvent.fileRead] :=
  c6_amended envNoKey "b.mp3".toList "pro".toList (by decide) (by decide) (by decide)

/-! ### Claim C7 -/

/-- C7: when the response has no candidate or the candidate's content has
no parts, the pipeline fails with the blocked error, the CLI exits with
code 1, and no output file is written. -/
theorem c7_blocked (env : Env) (p mk out k : List Char)
    (hex : env.fileExists = true) (haud : is_audio_file p = true)
    (hkey : env.apiKey = some k) (hb : blockedResponse env.response = true) :
    (transcribe_audio env p mk).1 = Except.error TranscribeError.blocked ∧
    (main env p mk out).exitCode = 1 ∧
    PipeEvent.fileWrite ∉ (main env p mk out).events := by
  have htr : transcribe_audio env p mk =
      (Except.error TranscribeError.blocked,
        [PipeEvent.fileRead, PipeEvent.netCall (selectModel mk)]) := by
    unfold transcribe_audio get_api_key
    rw [hex, haud, hkey, hb]
    simp
  have hmain : main env p mk out =
      { exitCode := 1, events := [PipeEvent.fileRead, PipeEvent.netCall (selectModel mk)],
        errMsg := some ("Error: ".toList ++ transcribeErrorText p TranscribeError.blocked) } := by
    unfold main
    rw [hex, haud, htr]
    simp
  refine ⟨by rw [htr], by rw [hmain], ?_⟩
  rw [hmain]
  intro hmem
  simp at hmem

/-- Witness for C7 at a concrete blocked environment. -/
theorem c7_blocked_witness :
    (transcribe_audio envBlocked "c.mp3".toList "flash".toList).1 =
      Except.error TranscribeError.blocked ∧
    (main envBlocked "c.mp3".toList "flash".toList [] ).exitCode = 1 ∧
    PipeEvent.fileWrite ∉ (main envBlocked "c.mp3".toList "flash".toList [] ).events :=
  c7_blocked envBlocked "c.mp3".toList "flash".toList [] "key".toList
    (by decide) (by decide) (by decide) (by decide)

/-! ### Claim C8 -/

/-- C8: for a nonexistent input path, the CLI exits with code 1 and prints
the file-not-found message, with no side effects at all (in particular no
network call). -/
theorem c8_missing_file (env : Env) (p mk out : List Char)
    (hex : env.fileExists = false) :
    (main env p mk out).exitCode = 1 ∧
    (main env p mk out).events = [] ∧
    (∀ mn, PipeEvent.netCall mn ∉ (main env p mk out).events) ∧
    (main env p mk out).errMsg = some ("Error: Audio file not found: ".toList ++ p) := by
  unfold main
  rw [hex]
  simp

/-- Witness for C8 at a concrete environment. -/
theorem c8_missing_file_witness :
    (main envMissing "gone.mp3".toList "flash".toList [] ).exitCode = 1 ∧
    (main envMissing "gone.mp3".toList "flash".toList [] ).events = [] ∧
    (∀ mn, PipeEvent.netCall mn ∉ (main envMissing "gone.mp3".toList "flash".toList [] ).events) ∧
    (main envMissing "gone.mp3".toList "flash".toList [] ).errMsg =
      some ("Error: Audio file not found: ".toList ++ "gone.mp3".toList) :=
  c8_missing_file envMissing "gone.mp3".toList "flash".toList [] (by decide)

/-! ### Claim C9 -/

theorem transcribe_congr {k1 k2 : List Char} (h : selectModel k1 = selectModel k2)
    (env : Env) (p : List Char) :
    transcribe_audio env p k1 = transcribe_audio env p k2 := by
  unfold transcribe_audio
  rw [h]

/-- C9: any model key outside the two-entry table silently selects the
default flash model identifier, and the pipeline behaves exactly as with
the key `flash`; no error is raised for unknown keys. -/
theorem c9_model_fallback (k : List Char) (hk1 : k ≠ "flash".toList)
    (hk2 : k ≠ "pro".toList) :
    selectModel k = "models/gemini-2.0-flash-exp".toList ∧
    ∀ (env : Env) (p : List Char),
      transcribe_audio env p k = transcribe_audio env p "flash".toList := by
  have h1 : (k == "flash".toList) = false := beq_eq_false_iff_ne.mpr hk1
  have h2 : (k == "pro".toList) = false := beq_eq_false_iff_ne.mpr hk2
  have hsel : selectModel k = "models/gemini-2.0-flash-exp".toList := by
    have h1' : (k == ['f', 'l', 'a', 's', 'h']) = false := h1
    have h2' : (k == ['p', 'r', 'o']) = false := h2
    unfold selectModel MODEL_OPTIONS DEFAULT_MODEL
    simp [List.lookup, h1', h2']
  refine ⟨hsel, fun env p => transcribe_congr ?_ env p⟩
  rw [hsel]
  rfl

/-- Witness for C9 at the concrete unknown key `turbo`. -/
theorem c9_model_fallback_witness :
    selectModel "turbo".toList = "models/gemini-2.0-flash-exp".toList ∧
    transcribe_audio envOk "d.mp3".toList "turbo".toList =
      transcribe_audio envOk "d.mp3".toList "flash".toList :=
  ⟨(c9_model_fallback "turbo".toList (by decide) (by decide)).1,
    (c9_model_fallback "turbo".toList (by decide) (by decide)).2 envOk "d.mp3".toList⟩

end TranscribeAudio
